import Mathlib

/-!
# Rectangle range search over ranked points (`src/main.c`)

A shallow embedding of `create`, `point_cmp`, `point_in_rect` and `search`.

Modelling conventions.

* A `float` is its IEEE-754 binary32 bit pattern; the C comparisons `<` and `>` are
  decoded from the bits (`f32_lt`, `f32_gt`), so NaN, the two zeros and the
  infinities behave as on the machine.
* An `int` rank is an `Int`; the subtraction of `point_cmp` is reduced to the signed
  32-bit range with `wrap32`.
* An array is a list of cells; a cell freshly obtained from `malloc` is `none`.
  Reading past the end of an array, reading an unwritten cell where a value is
  needed, and a `memcpy` whose size exceeds one of its two objects have no defined
  result: the operation yields `none`.
* `search` has no test on what its final `memcpy` does: it returns `copy_count` after
  the call in every case. When that copy has no defined result, the cells of the
  output array are unknown afterwards, which the model records as `none` cells.
* `qsort` belongs to the C library, not to this program. It is a parameter of
  `search`, constrained by `QsortSpec`; `qsortRef` is one executable instance.
-/

namespace PointSearch

/-! ## binary32 values and their comparisons -/

/-- Bit pattern of a `float`. -/
abbrev F32 := Fin 4294967296

/-- Magnitude field: the low 31 bits (exponent and fraction). -/
def f32_mag (a : F32) : Nat := a.val % 2147483648

/-- Sign bit. -/
def f32_neg (a : F32) : Bool := decide (2147483648 ≤ a.val)

/-- NaN: exponent all ones and a non-zero fraction. -/
def f32_isNaN (a : F32) : Bool := decide (2139095040 < f32_mag a)

/-- Position of a non-NaN value on the number line, up to a monotone rescaling:
sign-magnitude to signed integer; both zeros map to `0`. -/
def f32_key (a : F32) : Int := if f32_neg a then - (f32_mag a : Int) else (f32_mag a : Int)

/-- The C comparison `a < b` on floats. -/
def f32_lt (a b : F32) : Bool :=
  !f32_isNaN a && !f32_isNaN b && decide (f32_key a < f32_key b)

/-- The C comparison `a > b` on floats. -/
def f32_gt (a b : F32) : Bool := f32_lt b a

/-- The C comparison `a >= b` on floats. -/
def f32_ge (a b : F32) : Bool :=
  !f32_isNaN a && !f32_isNaN b && decide (f32_key b ≤ f32_key a)

/-- The C comparison `a == b` on floats. -/
def f32_eq (a b : F32) : Bool :=
  !f32_isNaN a && !f32_isNaN b && decide (f32_key a = f32_key b)

/-! ## data model -/

/-- Modelled from the spec: the declaration of `Point` in `point_search.h`, which is
not among the sources (two 32-bit floats and a signed 32-bit rank). -/
structure Point where
  x : F32
  y : F32
  rank : Int
  deriving DecidableEq, Repr

/-- Modelled from the spec: the declaration of `Rect` in `point_search.h`. -/
structure Rect where
  lx : F32
  ly : F32
  hx : F32
  hy : F32
  deriving DecidableEq, Repr

/-- An array of points in memory; `none` is a cell that was never written. -/
abbrev Buffer := List (Option Point)

/-- Modelled from the spec: the declaration of `SearchContext` in `point_search.h`;
the two fields are the ones `create` and `search` use. -/
structure SearchContext where
  points : Buffer
  points_len : Int
  deriving DecidableEq, Repr

/-! ## memory primitives -/

/-- `malloc(sizeof(Point) * n)`: `n` unwritten cells. -/
def malloc (n : Nat) : Buffer := List.replicate n none

/-- `memcpy(dst, src, sizeof(Point) * n)`.  A negative `n` converts to a `size_t`
larger than any object (with an `int` count and a 64-bit `size_t` the product is at
least `2^64 - 12 * 2^31` bytes), so only `0 ≤ n` within both arrays has a result. -/
def memcpy (dst src : Buffer) (n : Int) : Option Buffer :=
  if 0 ≤ n ∧ n.toNat ≤ src.length ∧ n.toNat ≤ dst.length then
    some (src.take n.toNat ++ dst.drop n.toNat)
  else none

/-- The assignment `buf[k] = p`. -/
def writeAt (buf : Buffer) (k : Nat) (p : Point) : Option Buffer :=
  if k < buf.length then some (buf.set k (some p)) else none

/-- The read `buf[i]` of a point value. -/
def readAt (buf : Buffer) (i : Nat) : Option Point :=
  match buf[i]? with
  | some (some p) => some p
  | _ => none

/-- Read every cell of an array as a point value. -/
def readCells : Buffer → Option (List Point)
  | [] => some []
  | none :: _ => none
  | some p :: rest =>
    match readCells rest with
    | some ps => some (p :: ps)
    | none => none

/-! ## the program -/

/-- `create(points_begin, points_end)`: the input range is given as the list of its
elements. -/
def create (input : List Point) : Option SearchContext :=
  match memcpy (malloc input.length) (input.map some) (input.length : Int) with
  | some pts => some { points := pts, points_len := (input.length : Int) }
  | none => none

/-- Reduction of an integer to the signed 32-bit range (two's complement). -/
def wrap32 (z : Int) : Int := (z + 2147483648) % 4294967296 - 2147483648

/-- `point_cmp(lhs, rhs)`. -/
def point_cmp (lhs rhs : Point) : Int := wrap32 (lhs.rank - rhs.rank)

/-- `point_in_rect(x, y, lx, ly, hx, hy)`. -/
def point_in_rect (x y lx ly hx hy : F32) : Bool :=
  f32_gt x lx && f32_lt x hx && f32_gt y ly && f32_lt y hy

/-- The filter loop of `search`: `k` further iterations from index `i`, on the state
`(temp_points, out_count)`. -/
def scan (sc : SearchContext) (rect : Rect) :
    Nat → Nat → Buffer × Nat → Option (Buffer × Nat)
  | 0, _, st => some st
  | k + 1, i, (temp_points, out_count) =>
    match readAt sc.points i with
    | none => none
    | some p =>
      if point_in_rect p.x p.y rect.lx rect.ly rect.hx rect.hy then
        match writeAt temp_points out_count p with
        | none => none
        | some temp_points1 => scan sc rect k (i + 1) (temp_points1, out_count + 1)
      else scan sc rect k (i + 1) (temp_points, out_count)

/-- A behaviour of the library function `qsort` on arrays of points. -/
abbrev QsortFn := (Point → Point → Int) → List Point → List Point

/-- `qsort(base, nmemb, sizeof(Point), compar)`: sorts the first `nmemb` cells in
place. -/
def qsortBuf (qsort : QsortFn) (base : Buffer) (nmemb : Nat)
    (compar : Point → Point → Int) : Option Buffer :=
  if nmemb ≤ base.length then
    match readCells (base.take nmemb) with
    | some elems => some ((qsort compar elems).map some ++ base.drop nmemb)
    | none => none
  else none

/-- `int copy_count = out_count < count ? out_count : count;` -/
def copy_count (out_count : Nat) (count : Int) : Int :=
  if (out_count : Int) < count then (out_count : Int) else count

/-- What a call of `search` leaves behind: the returned value, the caller's output
array and the context. -/
structure SearchResult where
  ret : Int
  out_points : Buffer
  sc : SearchContext
  deriving DecidableEq, Repr

/-- An array of which nothing is known any more: every cell is `none`. -/
def indeterminate (buf : Buffer) : Buffer := List.replicate buf.length none

/-- `search(sc, rect, count, out_points)`. The returned value is `copy_count` whatever
the final `memcpy` does (the source has no test between the two); when that copy has no
defined result the output array is left `indeterminate`. -/
def search (qsort : QsortFn) (sc : SearchContext) (rect : Rect) (count : Int)
    (out_points : Buffer) : Option SearchResult :=
  match scan sc rect sc.points_len.toNat 0 (malloc sc.points_len.toNat, 0) with
  | none => none
  | some (temp_points, out_count) =>
    match qsortBuf qsort temp_points out_count point_cmp with
    | none => none
    | some sorted_points =>
      some { ret := copy_count out_count count,
             out_points :=
               match memcpy out_points sorted_points (copy_count out_count count) with
               | some out1 => out1
               | none => indeterminate out_points,
             sc := sc }

/-! ## the contract of `qsort` -/

/-- The comparison function orders the elements of `l` consistently: opposite
arguments give opposite signs, and "not greater" is transitive. -/
def Consistent (compar : Point → Point → Int) (l : List Point) : Prop :=
  (∀ a ∈ l, ∀ b ∈ l, (compar a b < 0 ↔ 0 < compar b a)) ∧
  (∀ a ∈ l, ∀ b ∈ l, ∀ c ∈ l, compar a b ≤ 0 → compar b c ≤ 0 → compar a c ≤ 0)

/-- The contract of `qsort` (ISO C, "The qsort function"). A sort only moves elements,
so the result is a rearrangement of the array whatever the comparison function; when
the comparison function orders the elements consistently the result is ascending.
Nothing is promised on the order of elements that compare equal, nor on the order
reached with an inconsistent comparison function. -/
structure QsortSpec (qsort : QsortFn) : Prop where
  perm : ∀ compar l, (qsort compar l).Perm l
  sorted : ∀ compar l, Consistent compar l →
    (qsort compar l).Pairwise (fun a b => compar a b ≤ 0)

/-- An executable `qsort`: insertion sort driven by the comparison function. -/
def qsortRef : QsortFn :=
  fun compar l => List.insertionSort (fun a b => compar a b ≤ 0) l

/-! ## specification-side notions -/

/-- The stored points that satisfy `point_in_rect` for `rect`, in stored order. -/
def matching (pts : List Point) (rect : Rect) : List Point :=
  pts.filter (fun p => point_in_rect p.x p.y rect.lx rect.ly rect.hx rect.hy)

/-- Strict containment of a point in a rectangle. -/
def StrictlyInside (p : Point) (rect : Rect) : Prop :=
  f32_lt rect.lx p.x = true ∧ f32_lt p.x rect.hx = true ∧
  f32_lt rect.ly p.y = true ∧ f32_lt p.y rect.hy = true

/-- Encoding of `0.0f`. -/
def f32_zero : F32 := 0

/-- Encoding of `1.0f` (`0x3F800000`). -/
def f32_one : F32 := 1065353216

/-- Encoding of `5.0f` (`0x40A00000`). -/
def f32_five : F32 := 1084227584

/-- Encoding of `-1.0f` (`0xBF800000`). -/
def f32_minus_one : F32 := 3212836864

/-- Encoding of `-0.0f` (`0x80000000`). -/
def f32_minus_zero : F32 := 2147483648

/-! ## derived notions and sample data -/

/-- The working array of `search` after the scan and the sort, for the context that
stores `pts`. -/
def sortedWork (qsort : QsortFn) (pts : List Point) (rect : Rect) : Buffer :=
  (qsort point_cmp (matching pts rect)).map some
    ++ List.replicate (pts.length - (matching pts rect).length) none

/-- The points `search` hands back: the first `ret` cells of the output array. -/
def returned (r : SearchResult) : Buffer := r.out_points.take r.ret.toNat

/-- Three stored points: `(0,0)` rank 5, `(5,5)` rank 1, `(1,1)` rank 3. -/
def samplePoints : List Point :=
  [⟨f32_zero, f32_zero, 5⟩, ⟨f32_five, f32_five, 1⟩, ⟨f32_one, f32_one, 3⟩]

/-- The context `create` builds from `samplePoints`. -/
def sampleContext : SearchContext :=
  { points := samplePoints.map some, points_len := 3 }

/-- The open rectangle `(-1, 5) × (-1, 5)`: it contains `(0,0)` and `(1,1)`, and has
`(5,5)` on its corner. -/
def sampleRect : Rect := ⟨f32_minus_one, f32_minus_one, f32_five, f32_five⟩

/-- The rectangle with corners `(5,5)` and `(-1,-1)` given in the wrong order. -/
def invertedRect : Rect := ⟨f32_five, f32_five, f32_minus_one, f32_minus_one⟩

/-- The one-point context of the corner example: `(1,1)` with rank 0. -/
def cornerPoints : List Point := [⟨f32_one, f32_one, 0⟩]

/-- The rectangle `(1,1,5,5)` of the corner example. -/
def cornerRect : Rect := ⟨f32_one, f32_one, f32_five, f32_five⟩

/-- The context `create` builds from the empty range. -/
def emptyContext : SearchContext := { points := [], points_len := 0 }

/-- Two stored points inside `sampleRect`, the first with the least 32-bit rank. -/
def extremePoints : List Point :=
  [⟨f32_zero, f32_zero, -2147483648⟩, ⟨f32_one, f32_one, 1⟩]

/-- The context `create` builds from `extremePoints`. -/
def extremeContext : SearchContext :=
  { points := extremePoints.map some, points_len := 2 }

/-- Two stored points inside `sampleRect`: rank `-2`, then the greatest 32-bit rank. -/
def topRankPoints : List Point :=
  [⟨f32_zero, f32_zero, -2⟩, ⟨f32_one, f32_one, 2147483647⟩]

/-- The context `create` builds from `topRankPoints`. -/
def topRankContext : SearchContext :=
  { points := topRankPoints.map some, points_len := 2 }

/-- Encoding of `2.0f` (`0x40000000`). -/
def f32_two : F32 := 1073741824

/-- Encoding of `10.0f` (`0x41200000`). -/
def f32_ten : F32 := 1092616192

/-- The three points of the worked example: `(0,0)` rank 5, `(5,5)` rank 1, `(2,2)`
rank 3. -/
def examplePoints : List Point :=
  [⟨f32_zero, f32_zero, 5⟩, ⟨f32_five, f32_five, 1⟩, ⟨f32_two, f32_two, 3⟩]

/-- The rectangle `(-1,-1,10,10)` of the worked example. -/
def exampleRect : Rect := ⟨f32_minus_one, f32_minus_one, f32_ten, f32_ten⟩

/-- The worked example's points in the order of their ranks. -/
def exampleSorted : List Point :=
  [⟨f32_five, f32_five, 1⟩, ⟨f32_two, f32_two, 3⟩, ⟨f32_zero, f32_zero, 5⟩]

/-- An output array that already holds a point in its second cell. -/
def usedBuffer : Buffer := [none, some ⟨f32_five, f32_two, 9⟩, none]

/-- A stable `qsort`: whenever the comparison function orders the array consistently,
the elements that compare equal to one of them keep the order they had in the array.
Nothing is asked of the sort under an inconsistent comparison function. The C standard
does not promise stability. -/
def QsortStable (qsort : QsortFn) : Prop :=
  ∀ compar l, Consistent compar l → ∀ x ∈ l,
    (qsort compar l).filter (fun y => decide (compar x y = 0))
      = l.filter (fun y => decide (compar x y = 0))

/-- Another executable `qsort` that meets the contract: insertion sort of the array
read from its far end. It reverses the order of elements that compare equal. -/
def qsortRev : QsortFn :=
  fun compar l => List.insertionSort (fun a b => compar a b ≤ 0) l.reverse

/-- Two stored points inside `sampleRect` with the same rank. -/
def tiePoints : List Point := [⟨f32_zero, f32_zero, 4⟩, ⟨f32_one, f32_one, 4⟩]

/-- The context `create` builds from `tiePoints`. -/
def tieContext : SearchContext := { points := tiePoints.map some, points_len := 2 }

/-! ## auxiliary facts -/

theorem memcpy_ofNat (dst src : Buffer) (n : Nat) (hs : n ≤ src.length)
    (hd : n ≤ dst.length) :
    memcpy dst src (n : Int) = some (src.take n ++ dst.drop n) := by
  unfold memcpy
  rw [if_pos ⟨Int.ofNat_nonneg n, by simpa using hs, by simpa using hd⟩]
  simp

theorem memcpy_neg (dst src : Buffer) (n : Int) (hn : n < 0) : memcpy dst src n = none := by
  unfold memcpy
  rw [if_neg]
  omega

theorem create_eq (input : List Point) :
    create input = some { points := input.map some, points_len := (input.length : Int) } := by
  unfold create
  rw [memcpy_ofNat _ _ _ (by simp) (by simp [malloc])]
  simp [malloc]

theorem readAt_map_some (pts : List Point) (i : Nat) (h : i < pts.length) :
    readAt (pts.map some) i = some pts[i] := by
  unfold readAt
  simp [List.getElem?_map, List.getElem?_eq_getElem h]

theorem readCells_map_some (l : List Point) : readCells (l.map some) = some l := by
  induction l with
  | nil => rfl
  | cons a l ih => simp [readCells, ih]

theorem writeAt_frontier (done : List Point) (r : Nat) (p : Point) :
    writeAt (done.map some ++ List.replicate (r + 1) none) done.length p
      = some ((done ++ [p]).map some ++ List.replicate r none) := by
  unfold writeAt
  rw [if_pos (by simp)]
  congr 1
  induction done with
  | nil => simp [List.replicate_succ]
  | cons a l ih => simpa using ih

/-- The filter loop, run from index `i` to the end of the stored points with the
matches found so far in the first cells of the working array, ends with all matches
of the remaining points appended. -/
theorem scan_spec (pts : List Point) (len : Int) (rect : Rect) :
    ∀ (k i : Nat) (done : List Point) (r : Nat), i + k = pts.length → k ≤ r →
      scan { points := pts.map some, points_len := len } rect k i
          (done.map some ++ List.replicate r none, done.length)
        = some ((done ++ matching (pts.drop i) rect).map some
                  ++ List.replicate (r - (matching (pts.drop i) rect).length) none,
                done.length + (matching (pts.drop i) rect).length) := by
  intro k
  induction k with
  | zero =>
    intro i done r hi _
    have : pts.drop i = [] := List.drop_eq_nil_of_le (by omega)
    simp [scan, this, matching]
  | succ k ih =>
    intro i done r hi hr
    have hlt : i < pts.length := by omega
    have hdrop : pts.drop i = pts[i] :: pts.drop (i + 1) := List.drop_eq_getElem_cons hlt
    obtain ⟨r1, rfl⟩ : ∃ r1, r = r1 + 1 := ⟨r - 1, by omega⟩
    simp only [scan, readAt_map_some pts i hlt]
    by_cases hin : point_in_rect pts[i].x pts[i].y rect.lx rect.ly rect.hx rect.hy = true
    · have hm : matching (pts.drop i) rect = pts[i] :: matching (pts.drop (i + 1)) rect := by
        rw [hdrop]; unfold matching; rw [List.filter_cons, if_pos hin]
      rw [if_pos hin, writeAt_frontier]
      have h := ih (i + 1) (done ++ [pts[i]]) r1 (by omega) (by omega)
      simp only [List.length_append, List.length_singleton] at h
      simp only [h, hm]
      simp [Nat.add_assoc, Nat.add_comm 1]
    · have hm : matching (pts.drop i) rect = matching (pts.drop (i + 1)) rect := by
        rw [hdrop]; unfold matching; rw [List.filter_cons, if_neg hin]
      rw [if_neg hin, ih (i + 1) done (r1 + 1) (by omega) (by omega), hm]

theorem qsortBuf_frontier (qsort : QsortFn) (m : List Point) (r : Nat)
    (compar : Point → Point → Int) :
    qsortBuf qsort (m.map some ++ List.replicate r none) m.length compar
      = some ((qsort compar m).map some ++ List.replicate r none) := by
  unfold qsortBuf
  rw [if_pos (by simp)]
  have ht : (m.map some ++ List.replicate r (none : Option Point)).take m.length
      = m.map some := by
    rw [List.take_append_of_le_length (by simp)]
    exact List.take_of_length_le (by simp)
  have hd : (m.map some ++ List.replicate r (none : Option Point)).drop m.length
      = List.replicate r none := by
    rw [List.drop_append_of_le_length (by simp)]
    simp [List.drop_eq_nil_of_le]
  rw [ht, hd, readCells_map_some]

/-- Up to its final `memcpy`, `search` on the context that stores `pts` is determined
by the matches of `pts`. -/
theorem search_run (qsort : QsortFn) (pts : List Point) (rect : Rect) (count : Int)
    (out_points : Buffer) :
    search qsort { points := pts.map some, points_len := (pts.length : Int) } rect count
        out_points
      = some { ret := copy_count (matching pts rect).length count,
               out_points :=
                 match memcpy out_points (sortedWork qsort pts rect)
                     (copy_count (matching pts rect).length count) with
                 | some out1 => out1
                 | none => indeterminate out_points,
               sc := { points := pts.map some, points_len := (pts.length : Int) } } := by
  have hs := scan_spec pts (pts.length : Int) rect pts.length 0 [] pts.length
    (by simp) (Nat.le_refl _)
  simp only [List.map_nil, List.nil_append, List.length_nil, List.drop_zero,
    Nat.zero_add] at hs
  unfold search
  simp only [Int.toNat_ofNat, malloc, hs, qsortBuf_frontier, sortedWork]

theorem copy_count_nonneg (m : Nat) (count : Int) (h : 0 ≤ count) :
    copy_count m count = ((min m count.toNat : Nat) : Int) := by
  unfold copy_count
  split <;> omega

/-- With a non-negative `count` and room for the copied points in the output array,
`search` returns, and its result is the sorted matches cut to `count`. -/
theorem search_ok (qsort : QsortFn) (hq : QsortSpec qsort) (pts : List Point) (rect : Rect)
    (count : Int) (out_points : Buffer) (hc : 0 ≤ count)
    (hcap : min (matching pts rect).length count.toNat ≤ out_points.length) :
    search qsort { points := pts.map some, points_len := (pts.length : Int) } rect count
        out_points
      = some
          { ret := ((min (matching pts rect).length count.toNat : Nat) : Int),
            out_points :=
              ((qsort point_cmp (matching pts rect)).take
                  (min (matching pts rect).length count.toNat)).map some
                ++ out_points.drop (min (matching pts rect).length count.toNat),
            sc := { points := pts.map some, points_len := (pts.length : Int) } } := by
  have hlen : (qsort point_cmp (matching pts rect)).length = (matching pts rect).length :=
    (hq.perm point_cmp (matching pts rect)).length_eq
  have hle : (matching pts rect).length ≤ pts.length := List.length_filter_le _ _
  rw [search_run, copy_count_nonneg _ _ hc,
    memcpy_ofNat _ _ _ (by simp [sortedWork, hlen]) hcap]
  simp only [sortedWork]
  rw [List.take_append_of_le_length (by simp [hlen]), List.map_take]

/-! ### the reference `qsort` meets the contract -/

theorem consistent_total {compar : Point → Point → Int} {l : List Point}
    (h : Consistent compar l) {a b : Point} (ha : a ∈ l) (hb : b ∈ l) :
    compar a b ≤ 0 ∨ compar b a ≤ 0 := by
  by_cases hab : compar a b ≤ 0
  · exact Or.inl hab
  · exact Or.inr (le_of_lt ((h.1 b hb a ha).mpr (by omega)))

theorem orderedInsert_ascending (compar : Point → Point → Int) (s : List Point)
    (hs : Consistent compar s) (a : Point) (ha : a ∈ s) :
    ∀ l : List Point, (∀ x ∈ l, x ∈ s) → l.Pairwise (fun p q => compar p q ≤ 0) →
      (List.orderedInsert (fun p q => compar p q ≤ 0) a l).Pairwise
        (fun p q => compar p q ≤ 0)
  | [], _, _ => by simp
  | b :: l, hmem, hsorted => by
    have hb : b ∈ s := hmem b (List.mem_cons_self _ _)
    have hl : ∀ x ∈ l, x ∈ s := fun x hx => hmem x (List.mem_cons_of_mem _ hx)
    rw [List.pairwise_cons] at hsorted
    by_cases hab : compar a b ≤ 0
    · rw [List.orderedInsert, if_pos hab, List.pairwise_cons]
      refine ⟨?_, List.pairwise_cons.mpr hsorted⟩
      intro x hx
      rcases List.mem_cons.mp hx with rfl | hx
      · exact hab
      · exact hs.2 a ha b hb x (hl x hx) hab (hsorted.1 x hx)
    · rw [List.orderedInsert, if_neg hab, List.pairwise_cons]
      refine ⟨?_, orderedInsert_ascending compar s hs a ha l hl hsorted.2⟩
      intro x hx
      rcases (List.mem_orderedInsert _).mp hx with rfl | hx
      · exact (consistent_total hs ha hb).resolve_left hab
      · exact hsorted.1 x hx

theorem insertionSort_ascending (compar : Point → Point → Int) (s : List Point)
    (hs : Consistent compar s) :
    ∀ l : List Point, (∀ x ∈ l, x ∈ s) →
      (List.insertionSort (fun p q => compar p q ≤ 0) l).Pairwise
        (fun p q => compar p q ≤ 0)
  | [], _ => by simp
  | a :: l, hmem => by
    rw [List.insertionSort]
    refine orderedInsert_ascending compar s hs a (hmem a (List.mem_cons_self _ _)) _ ?_
      (insertionSort_ascending compar s hs l
        (fun x hx => hmem x (List.mem_cons_of_mem _ hx)))
    intro x hx
    exact hmem x (List.mem_cons_of_mem _ ((List.mem_insertionSort _).mp hx))

theorem qsortRef_spec : QsortSpec qsortRef where
  perm := fun _ l => List.perm_insertionSort _ l
  sorted := fun compar l h => insertionSort_ascending compar l h l (fun _ hx => hx)

/-! ### comparisons of binary32 values -/

theorem f32_lt_iff (a b : F32) :
    f32_lt a b = true ↔ f32_isNaN a = false ∧ f32_isNaN b = false ∧ f32_key a < f32_key b := by
  simp [f32_lt, and_assoc]

theorem f32_ge_iff (a b : F32) :
    f32_ge a b = true ↔ f32_isNaN a = false ∧ f32_isNaN b = false ∧ f32_key b ≤ f32_key a := by
  simp [f32_ge, and_assoc]

theorem f32_eq_iff (a b : F32) :
    f32_eq a b = true ↔ f32_isNaN a = false ∧ f32_isNaN b = false ∧ f32_key a = f32_key b := by
  simp [f32_eq, and_assoc]

theorem f32_lt_irrefl (a : F32) : f32_lt a a = false := by
  simp [f32_lt]

theorem f32_lt_not_eq {a b : F32} (h : f32_lt a b = true) :
    f32_eq a b = false ∧ f32_eq b a = false ∧ a ≠ b := by
  have hk := ((f32_lt_iff a b).mp h).2.2
  refine ⟨?_, ?_, ?_⟩
  · cases he : f32_eq a b
    · rfl
    · have := ((f32_eq_iff a b).mp he).2.2; omega
  · cases he : f32_eq b a
    · rfl
    · have := ((f32_eq_iff b a).mp he).2.2; omega
  · rintro rfl
    omega

theorem f32_lt_trans {a b c : F32} (h1 : f32_lt a b = true) (h2 : f32_lt b c = true) :
    f32_lt a c = true := by
  rw [f32_lt_iff] at h1 h2 ⊢
  exact ⟨h1.1, h2.2.1, lt_trans h1.2.2 h2.2.2⟩

theorem f32_not_lt_of_ge {a b : F32} (h : f32_ge a b = true) : f32_lt a b = false := by
  cases hl : f32_lt a b
  · rfl
  · have h1 := ((f32_lt_iff a b).mp hl).2.2
    have h2 := ((f32_ge_iff a b).mp h).2.2
    omega

theorem point_in_rect_iff (x y lx ly hx hy : F32) :
    point_in_rect x y lx ly hx hy = true ↔
      f32_lt lx x = true ∧ f32_lt x hx = true ∧ f32_lt ly y = true ∧ f32_lt y hy = true := by
  simp [point_in_rect, f32_gt, and_assoc]

theorem mem_matching {pts : List Point} {rect : Rect} {p : Point} :
    p ∈ matching pts rect ↔ p ∈ pts ∧ StrictlyInside p rect := by
  simp [matching, StrictlyInside, point_in_rect_iff]

/-- An inverted or degenerate rectangle contains no point. -/
theorem matching_inverted (pts : List Point) (rect : Rect)
    (h : f32_ge rect.lx rect.hx = true ∨ f32_ge rect.ly rect.hy = true) :
    matching pts rect = [] := by
  rw [List.eq_nil_iff_forall_not_mem]
  intro p hp
  obtain ⟨_, h1, h2, h3, h4⟩ := mem_matching.mp hp
  rcases h with h | h
  · have := f32_not_lt_of_ge h
    rw [f32_lt_trans h1 h2] at this
    cases this
  · have := f32_not_lt_of_ge h
    rw [f32_lt_trans h3 h4] at this
    cases this

theorem returned_search_ok (qsort : QsortFn) (hq : QsortSpec qsort) (pts : List Point)
    (rect : Rect) (count : Int) (out_points : Buffer) (hc : 0 ≤ count)
    (hcap : min (matching pts rect).length count.toNat ≤ out_points.length) :
    ∃ r, search qsort { points := pts.map some, points_len := (pts.length : Int) } rect
          count out_points = some r ∧
      r.ret = ((min (matching pts rect).length count.toNat : Nat) : Int) ∧
      r.sc = { points := pts.map some, points_len := (pts.length : Int) } ∧
      r.out_points.length = out_points.length ∧
      r.out_points.drop r.ret.toNat = out_points.drop r.ret.toNat ∧
      returned r = ((qsort point_cmp (matching pts rect)).take
          (min (matching pts rect).length count.toNat)).map some := by
  have hlen : (qsort point_cmp (matching pts rect)).length = (matching pts rect).length :=
    (hq.perm point_cmp (matching pts rect)).length_eq
  refine ⟨_, search_ok qsort hq pts rect count out_points hc hcap, rfl, rfl, ?_, ?_, ?_⟩
  · simp only [List.length_append, List.length_map, List.length_take, List.length_drop, hlen]
    omega
  · simp only [Int.toNat_ofNat]
    rw [List.drop_append_of_le_length (by simp [hlen])]
    simp [List.drop_eq_nil_of_le, hlen]
  · simp only [returned, Int.toNat_ofNat]
    rw [List.take_append_of_le_length (by simp [hlen])]
    exact List.take_of_length_le (by simp [hlen])

theorem create_some {input : List Point} {sc : SearchContext} (h : create input = some sc) :
    sc = { points := input.map some, points_len := (input.length : Int) } := by
  rw [create_eq] at h
  exact (Option.some.inj h).symm

theorem getElem?_returned (r : SearchResult) (i : Nat) (h : (i : Int) < r.ret) :
    r.out_points[i]? = (returned r)[i]? := by
  unfold returned
  rw [List.getElem?_take_of_lt (by omega)]

/-- When the number of points to copy is zero, `search` returns `0` and leaves the
output array as it was. -/
theorem search_copy_zero (qsort : QsortFn) (pts : List Point) (rect : Rect) (count : Int)
    (out_points : Buffer) (h0 : copy_count (matching pts rect).length count = 0) :
    search qsort { points := pts.map some, points_len := (pts.length : Int) } rect count
        out_points
      = some { ret := 0, out_points := out_points,
               sc := { points := pts.map some, points_len := (pts.length : Int) } } := by
  rw [search_run, h0]
  have : memcpy out_points (sortedWork qsort pts rect) 0 = some out_points := by
    have := memcpy_ofNat out_points (sortedWork qsort pts rect) 0 (Nat.zero_le _)
      (Nat.zero_le _)
    simpa using this
  rw [this]

theorem perm_pair {a b : Point} {l : List Point} (h : l.Perm [a, b]) :
    l = [a, b] ∨ l = [b, a] := by
  match l, h with
  | [], h => exact absurd h.length_eq (by simp)
  | [_], h => exact absurd h.length_eq (by simp)
  | _ :: _ :: _ :: _, h => exact absurd h.length_eq (by simp)
  | [x, y], h =>
    have hx : x ∈ [a, b] := h.subset (List.mem_cons_self _ _)
    rcases List.mem_cons.mp hx with rfl | hx
    · have hy := List.perm_singleton.mp (List.Perm.cons_inv h)
      exact Or.inl (by rw [List.cons.inj hy |>.1])
    · have hxb : x = b := by simpa using hx
      subst hxb
      have hy := List.perm_singleton.mp (List.Perm.cons_inv (h.trans (List.Perm.swap _ _ _)))
      exact Or.inr (by rw [List.cons.inj hy |>.1])

/-- On two elements that the comparison function orders consistently, with the first
reported greater, every `qsort` meeting the contract swaps them. -/
theorem qsort_pair_swapped (qsort : QsortFn) (hq : QsortSpec qsort)
    (compar : Point → Point → Int) (a b : Point) (hcons : Consistent compar [a, b])
    (hgt : 0 < compar a b) : qsort compar [a, b] = [b, a] := by
  rcases perm_pair (hq.perm compar [a, b]) with h | h
  · have hs := hq.sorted compar [a, b] hcons
    rw [h] at hs
    have := (List.pairwise_cons.mp hs).1 b (List.mem_cons_self _ _)
    omega
  · exact h

/-! ### the comparison function away from overflow -/

theorem wrap32_of_range (z : Int) (h1 : -2147483648 ≤ z) (h2 : z ≤ 2147483647) :
    wrap32 z = z := by
  unfold wrap32
  omega

/-- When no difference of two ranks in `l` leaves the signed 32-bit range, `point_cmp`
orders `l` consistently. -/
theorem point_cmp_consistent (l : List Point)
    (h : ∀ a ∈ l, ∀ b ∈ l, -2147483648 ≤ a.rank - b.rank ∧ a.rank - b.rank ≤ 2147483647) :
    Consistent point_cmp l := by
  have hc : ∀ a ∈ l, ∀ b ∈ l, point_cmp a b = a.rank - b.rank := fun a ha b hb =>
    wrap32_of_range _ (h a ha b hb).1 (h a ha b hb).2
  constructor
  · intro a ha b hb
    rw [hc a ha b hb, hc b hb a ha]
    omega
  · intro a ha b hb c hc1 hab hbc
    rw [hc a ha b hb] at hab
    rw [hc b hb c hc1] at hbc
    rw [hc a ha c hc1]
    omega

/-- Away from overflow the sorted working array is non-decreasing by rank. -/
theorem qsort_matching_ascending (qsort : QsortFn) (hq : QsortSpec qsort) (l : List Point)
    (h : ∀ a ∈ l, ∀ b ∈ l, -2147483648 ≤ a.rank - b.rank ∧ a.rank - b.rank ≤ 2147483647) :
    (qsort point_cmp l).Pairwise (fun a b => a.rank ≤ b.rank) := by
  have hs := hq.sorted point_cmp l (point_cmp_consistent l h)
  have hp := hq.perm point_cmp l
  refine hs.imp_of_mem ?_
  intro a b ha hb hab
  have ha1 := hp.subset ha
  have hb1 := hp.subset hb
  have : point_cmp a b = a.rank - b.rank :=
    wrap32_of_range _ (h a ha1 b hb1).1 (h a ha1 b hb1).2
  omega

/-! ### uniqueness of the ascending arrangement -/

/-- Two arrangements of the same elements, both non-decreasing by rank, coincide when
the rank identifies the element. -/
theorem ascending_perm_unique :
    ∀ (l1 l2 : List Point), l1.Perm l2 →
      l1.Pairwise (fun a b => a.rank ≤ b.rank) → l2.Pairwise (fun a b => a.rank ≤ b.rank) →
      (∀ a ∈ l2, ∀ b ∈ l2, a.rank = b.rank → a = b) → l1 = l2
  | [], l2, hp, _, _, _ => (List.Perm.nil_eq hp)
  | a :: t1, [], hp, _, _, _ => absurd hp.length_eq (by simp)
  | a :: t1, b :: t2, hp, h1, h2, hinj => by
    have ha : a ∈ b :: t2 := hp.subset (List.mem_cons_self _ _)
    have hb : b ∈ a :: t1 := hp.symm.subset (List.mem_cons_self _ _)
    rw [List.pairwise_cons] at h1 h2
    have hab : a.rank ≤ b.rank := by
      rcases List.mem_cons.mp hb with h | h
      · rw [h]
      · exact h1.1 b h
    have hba : b.rank ≤ a.rank := by
      rcases List.mem_cons.mp ha with h | h
      · rw [h]
      · exact h2.1 a h
    have heq : a = b := hinj a ha b (List.mem_cons_self _ _) (le_antisymm hab hba)
    subst heq
    have ht := ascending_perm_unique t1 t2 (List.Perm.cons_inv hp) h1.2 h2.2
      (fun x hx y hy => hinj x (List.mem_cons_of_mem _ hx) y (List.mem_cons_of_mem _ hy))
    rw [ht]

/-- Away from overflow and with pairwise distinct ranks, every `qsort` meeting the
contract produces the one arrangement that is non-decreasing by rank. -/
theorem qsort_eq_of_ascending (qsort : QsortFn) (hq : QsortSpec qsort) (l sorted : List Point)
    (hrange : ∀ a ∈ l, ∀ b ∈ l,
      -2147483648 ≤ a.rank - b.rank ∧ a.rank - b.rank ≤ 2147483647)
    (hinj : ∀ a ∈ sorted, ∀ b ∈ sorted, a.rank = b.rank → a = b)
    (hperm : sorted.Perm l) (hasc : sorted.Pairwise (fun a b => a.rank ≤ b.rank)) :
    qsort point_cmp l = sorted :=
  ascending_perm_unique _ _ ((hq.perm point_cmp l).trans hperm.symm)
    (qsort_matching_ascending qsort hq l hrange) hasc hinj

/-! ### the filter loop, iteration by iteration -/

/-- A run of `k1 + k2` iterations is a run of `k1` iterations followed by `k2` more. -/
theorem scan_add (sc : SearchContext) (rect : Rect) (k2 : Nat) :
    ∀ (k1 i : Nat) (st : Buffer × Nat),
      scan sc rect (k1 + k2) i st
        = match scan sc rect k1 i st with
          | none => none
          | some st1 => scan sc rect k2 (i + k1) st1
  | 0, i, st => by simp [scan]
  | k1 + 1, i, (temp_points, out_count) => by
    have hk : k1 + 1 + k2 = (k1 + k2) + 1 := by omega
    have hi : i + (k1 + 1) = i + 1 + k1 := by omega
    rw [hk, hi]
    simp only [scan]
    cases readAt sc.points i with
    | none => rfl
    | some p =>
      simp only []
      by_cases hin : point_in_rect p.x p.y rect.lx rect.ly rect.hx rect.hy = true
      · simp only [if_pos hin]
        cases writeAt temp_points out_count p with
        | none => rfl
        | some t1 => exact scan_add sc rect k2 k1 (i + 1) (t1, out_count + 1)
      · simp only [if_neg hin]
        exact scan_add sc rect k2 k1 (i + 1) (temp_points, out_count)

/-- The first `k` iterations of the filter loop, started on a working array whose
first cells hold the matches found so far, append the matches among the next `k`
stored points. -/
theorem scan_steps (pts : List Point) (len : Int) (rect : Rect) :
    ∀ (k i : Nat) (done : List Point) (r : Nat), i + k ≤ pts.length → k ≤ r →
      scan { points := pts.map some, points_len := len } rect k i
          (done.map some ++ List.replicate r none, done.length)
        = some ((done ++ matching ((pts.drop i).take k) rect).map some
                  ++ List.replicate (r - (matching ((pts.drop i).take k) rect).length) none,
                done.length + (matching ((pts.drop i).take k) rect).length) := by
  intro k
  induction k with
  | zero =>
    intro i done r _ _
    simp [scan, matching]
  | succ k ih =>
    intro i done r hi hr
    have hlt : i < pts.length := by omega
    have hdrop : (pts.drop i).take (k + 1) = pts[i] :: (pts.drop (i + 1)).take k := by
      rw [List.drop_eq_getElem_cons hlt, List.take_succ_cons]
    obtain ⟨r1, rfl⟩ : ∃ r1, r = r1 + 1 := ⟨r - 1, by omega⟩
    simp only [scan, readAt_map_some pts i hlt]
    by_cases hin : point_in_rect pts[i].x pts[i].y rect.lx rect.ly rect.hx rect.hy = true
    · have hm : matching ((pts.drop i).take (k + 1)) rect
          = pts[i] :: matching ((pts.drop (i + 1)).take k) rect := by
        rw [hdrop]; unfold matching; rw [List.filter_cons, if_pos hin]
      rw [if_pos hin, writeAt_frontier]
      have h := ih (i + 1) (done ++ [pts[i]]) r1 (by omega) (by omega)
      simp only [List.length_append, List.length_singleton] at h
      simp only [h, hm]
      simp [Nat.add_assoc, Nat.add_comm 1]
    · have hm : matching ((pts.drop i).take (k + 1)) rect
          = matching ((pts.drop (i + 1)).take k) rect := by
        rw [hdrop]; unfold matching; rw [List.filter_cons, if_neg hin]
      rw [if_neg hin, ih (i + 1) done (r1 + 1) (by omega) (by omega), hm]

/-- The state of the filter loop on entry to iteration `i`. -/
theorem scan_entry_state (pts : List Point) (rect : Rect) (i : Nat) (hi : i ≤ pts.length) :
    scan { points := pts.map some, points_len := (pts.length : Int) } rect i 0
        (malloc pts.length, 0)
      = some ((matching (pts.take i) rect).map some
                ++ List.replicate (pts.length - (matching (pts.take i) rect).length) none,
              (matching (pts.take i) rect).length) := by
  have h := scan_steps pts (pts.length : Int) rect i 0 [] pts.length (by omega) hi
  simpa [malloc] using h

theorem matching_length_le (pts : List Point) (rect : Rect) :
    (matching pts rect).length ≤ pts.length :=
  List.length_filter_le _ _

/-! ### stability -/

theorem qsortRev_spec : QsortSpec qsortRev where
  perm := fun _ l => (List.perm_insertionSort _ l.reverse).trans (List.reverse_perm l)
  sorted := fun compar l h =>
    insertionSort_ascending compar l h l.reverse (fun _ hx => List.mem_reverse.mp hx)

/-- Under a consistent comparison function, two elements that compare equal to a
third are not ordered strictly. -/
theorem consistent_tie_le {compar : Point → Point → Int} {s : List Point}
    (hs : Consistent compar s) {x a b : Point} (hx : x ∈ s) (ha : a ∈ s) (hb : b ∈ s)
    (hxa : compar x a = 0) (hxb : compar x b = 0) : compar a b ≤ 0 := by
  have h1 := hs.1 x hx a ha
  have hax : compar a x ≤ 0 := by omega
  exact hs.2 a ha x hx b hb hax (le_of_eq hxb)

theorem orderedInsert_filter_tie (compar : Point → Point → Int) (s : List Point)
    (hs : Consistent compar s) (x : Point) (hx : x ∈ s) (a : Point) (ha : a ∈ s) :
    ∀ l : List Point, (∀ b ∈ l, b ∈ s) →
      (List.orderedInsert (fun p q => compar p q ≤ 0) a l).filter
          (fun y => decide (compar x y = 0))
        = (a :: l).filter (fun y => decide (compar x y = 0))
  | [], _ => by simp
  | b :: l, hmem => by
    have hb : b ∈ s := hmem b (List.mem_cons_self _ _)
    have ih := orderedInsert_filter_tie compar s hs x hx a ha l
      (fun c hc => hmem c (List.mem_cons_of_mem _ hc))
    by_cases hab : compar a b ≤ 0
    · rw [List.orderedInsert, if_pos hab]
    · rw [List.orderedInsert, if_neg hab, List.filter_cons, ih]
      by_cases hxa : compar x a = 0
      · have hxb : ¬ compar x b = 0 := fun hxb => hab (consistent_tie_le hs hx ha hb hxa hxb)
        simp [List.filter_cons, hxa, hxb]
      · simp [List.filter_cons, hxa]

theorem insertionSort_filter_tie (compar : Point → Point → Int) (s : List Point)
    (hs : Consistent compar s) (x : Point) (hx : x ∈ s) :
    ∀ l : List Point, (∀ b ∈ l, b ∈ s) →
      (List.insertionSort (fun p q => compar p q ≤ 0) l).filter
          (fun y => decide (compar x y = 0))
        = l.filter (fun y => decide (compar x y = 0))
  | [], _ => by simp
  | a :: l, hmem => by
    rw [List.insertionSort, orderedInsert_filter_tie compar s hs x hx a
      (hmem a (List.mem_cons_self _ _)) _
      (fun b hb => hmem b (List.mem_cons_of_mem _ ((List.mem_insertionSort _).mp hb)))]
    rw [List.filter_cons, List.filter_cons,
      insertionSort_filter_tie compar s hs x hx l
        (fun b hb => hmem b (List.mem_cons_of_mem _ hb))]

theorem qsortRef_stable : QsortStable qsortRef :=
  fun compar l h x hx => insertionSort_filter_tie compar l h x hx l (fun _ hb => hb)

/-! ## the claims -/

/-- C1: for every context, rectangle and `maxCount ≥ 0` (with room in the output array
for the copied points), `search` returns and each of the first `ret` output entries is
a point strictly inside the rectangle; none of its coordinates equals a bound, neither
as a bit pattern nor under the floating-point `==`. -/
theorem search_returned_strictly_inside (qsort : QsortFn) (hq : QsortSpec qsort)
    (input : List Point) (sc : SearchContext) (hsc : create input = some sc)
    (rect : Rect) (count : Int) (hc : 0 ≤ count) (out_points : Buffer)
    (hcap : min (matching input rect).length count.toNat ≤ out_points.length) :
    ∃ r, search qsort sc rect count out_points = some r ∧
      ∀ i : Nat, (i : Int) < r.ret →
        ∃ p, r.out_points[i]? = some (some p) ∧ StrictlyInside p rect ∧
          (p.x ≠ rect.lx ∧ p.x ≠ rect.hx ∧ p.y ≠ rect.ly ∧ p.y ≠ rect.hy) ∧
          (f32_eq p.x rect.lx = false ∧ f32_eq p.x rect.hx = false ∧
            f32_eq p.y rect.ly = false ∧ f32_eq p.y rect.hy = false) := by
  obtain ⟨r, hr, hret, -, -, -, hout⟩ :=
    returned_search_ok qsort hq input rect count out_points hc hcap
  rw [create_some hsc]
  refine ⟨r, hr, fun i hi => ?_⟩
  have hlen : (qsort point_cmp (matching input rect)).length = (matching input rect).length :=
    (hq.perm point_cmp (matching input rect)).length_eq
  have hi1 : i < ((qsort point_cmp (matching input rect)).take
      (min (matching input rect).length count.toNat)).length := by
    rw [List.length_take, hlen]; omega
  rw [getElem?_returned r i hi, hout, List.getElem?_map, List.getElem?_eq_getElem hi1]
  refine ⟨_, rfl, ?_⟩
  have hmem : ((qsort point_cmp (matching input rect)).take
      (min (matching input rect).length count.toNat))[i] ∈ matching input rect :=
    (hq.perm point_cmp (matching input rect)).subset
      (List.mem_of_mem_take (List.getElem_mem hi1))
  have hin := (mem_matching.mp hmem).2
  obtain ⟨h1, h2, h3, h4⟩ := hin
  exact ⟨⟨h1, h2, h3, h4⟩,
    ⟨(f32_lt_not_eq h1).2.2.symm, (f32_lt_not_eq h2).2.2, (f32_lt_not_eq h3).2.2.symm,
      (f32_lt_not_eq h4).2.2⟩,
    ⟨(f32_lt_not_eq h1).2.1, (f32_lt_not_eq h2).1, (f32_lt_not_eq h3).2.1,
      (f32_lt_not_eq h4).1⟩⟩

theorem search_returned_strictly_inside_witness :
    ∃ r, search qsortRef sampleContext sampleRect 2 [none, none] = some r ∧
      ∀ i : Nat, (i : Int) < r.ret →
        ∃ p, r.out_points[i]? = some (some p) ∧ StrictlyInside p sampleRect ∧
          (p.x ≠ sampleRect.lx ∧ p.x ≠ sampleRect.hx ∧ p.y ≠ sampleRect.ly ∧
            p.y ≠ sampleRect.hy) ∧
          (f32_eq p.x sampleRect.lx = false ∧ f32_eq p.x sampleRect.hx = false ∧
            f32_eq p.y sampleRect.ly = false ∧ f32_eq p.y sampleRect.hy = false) :=
  search_returned_strictly_inside qsortRef qsortRef_spec samplePoints sampleContext
    (by decide) sampleRect 2 (by decide) [none, none] (by decide)

theorem extremePoints_consistent :
    Consistent point_cmp (matching extremePoints sampleRect) := by
  unfold Consistent
  decide

/-- C2 fails on the code: with stored ranks `-2147483648` and `1`, both points inside
the rectangle and `maxCount = 2`, every `qsort` that meets its contract makes `search`
return the point of rank `1` before the point of rank `-2147483648`. -/
theorem search_rank_order_overflow (qsort : QsortFn) (hq : QsortSpec qsort) :
    create extremePoints = some extremeContext ∧
    search qsort extremeContext sampleRect 2 [none, none]
      = some { ret := 2,
               out_points := [some ⟨f32_one, f32_one, 1⟩,
                              some ⟨f32_zero, f32_zero, -2147483648⟩],
               sc := extremeContext } := by
  refine ⟨by decide, ?_⟩
  have hm : matching extremePoints sampleRect
      = [⟨f32_zero, f32_zero, -2147483648⟩, ⟨f32_one, f32_one, 1⟩] := by decide
  have hsort := qsort_pair_swapped qsort hq point_cmp ⟨f32_zero, f32_zero, -2147483648⟩
    ⟨f32_one, f32_one, 1⟩ (hm ▸ extremePoints_consistent) (by decide)
  have h := search_ok qsort hq extremePoints sampleRect 2 [none, none] (by decide)
    (by decide)
  rw [hm, hsort] at h
  exact h

theorem search_rank_order_overflow_witness :
    create extremePoints = some extremeContext ∧
    search qsortRef extremeContext sampleRect 2 [none, none]
      = some { ret := 2,
               out_points := [some ⟨f32_one, f32_one, 1⟩,
                              some ⟨f32_zero, f32_zero, -2147483648⟩],
               sc := extremeContext } :=
  search_rank_order_overflow qsortRef qsortRef_spec

/-- C3: for every context, rectangle and `maxCount ≥ 0` (with room in the output array
for the copied points), `search` returns `min(M, maxCount)`, where `M` is the number of
stored points satisfying `point_in_rect`; when `maxCount > M` it returns `M`. -/
theorem search_ret_eq_min (qsort : QsortFn) (hq : QsortSpec qsort)
    (input : List Point) (sc : SearchContext) (hsc : create input = some sc)
    (rect : Rect) (count : Int) (hc : 0 ≤ count) (out_points : Buffer)
    (hcap : min (matching input rect).length count.toNat ≤ out_points.length) :
    ∃ r, search qsort sc rect count out_points = some r ∧
      r.ret = min ((matching input rect).length : Int) count ∧
      (((matching input rect).length : Int) < count →
        r.ret = ((matching input rect).length : Int)) := by
  obtain ⟨r, hr, hret, -⟩ :=
    returned_search_ok qsort hq input rect count out_points hc hcap
  rw [create_some hsc]
  refine ⟨r, hr, ?_, fun hlt => ?_⟩
  · rw [hret]; omega
  · rw [hret]; omega

theorem search_ret_eq_min_witness :
    (∃ r, search qsortRef sampleContext sampleRect 1 [none] = some r ∧
      r.ret = min ((matching samplePoints sampleRect).length : Int) 1 ∧
      (((matching samplePoints sampleRect).length : Int) < 1 →
        r.ret = ((matching samplePoints sampleRect).length : Int))) ∧
    (matching samplePoints sampleRect).length = 2 :=
  ⟨search_ret_eq_min qsortRef qsortRef_spec samplePoints sampleContext (by decide)
    sampleRect 1 (by decide) [none] (by decide), by decide⟩

theorem topRankPoints_consistent :
    Consistent point_cmp (matching topRankPoints sampleRect) := by
  unfold Consistent
  decide

/-- C4 fails on the code: with stored ranks `-2` and `2147483647`, both points inside the
rectangle and `maxCount = 1`, every `qsort` that meets its contract makes `search`
return the point of rank `2147483647` and leave out the matching point of rank `-2`,
whose rank is smaller. -/
theorem search_best_ranked_overflow (qsort : QsortFn) (hq : QsortSpec qsort) :
    create topRankPoints = some topRankContext ∧
    search qsort topRankContext sampleRect 1 [none]
      = some { ret := 1,
               out_points := [some ⟨f32_one, f32_one, 2147483647⟩],
               sc := topRankContext } ∧
    (⟨f32_zero, f32_zero, -2⟩ : Point) ∈ matching topRankPoints sampleRect ∧
    (⟨f32_zero, f32_zero, -2⟩ : Point).rank < (⟨f32_one, f32_one, 2147483647⟩ : Point).rank := by
  refine ⟨by decide, ?_, by decide, by decide⟩
  have hm : matching topRankPoints sampleRect
      = [⟨f32_zero, f32_zero, -2⟩, ⟨f32_one, f32_one, 2147483647⟩] := by decide
  have hsort := qsort_pair_swapped qsort hq point_cmp ⟨f32_zero, f32_zero, -2⟩
    ⟨f32_one, f32_one, 2147483647⟩ (hm ▸ topRankPoints_consistent) (by decide)
  have h := search_ok qsort hq topRankPoints sampleRect 1 [none] (by decide) (by decide)
  rw [hm, hsort] at h
  exact h

theorem search_best_ranked_overflow_witness :
    create topRankPoints = some topRankContext ∧
    search qsortRef topRankContext sampleRect 1 [none]
      = some { ret := 1,
               out_points := [some ⟨f32_one, f32_one, 2147483647⟩],
               sc := topRankContext } ∧
    (⟨f32_zero, f32_zero, -2⟩ : Point) ∈ matching topRankPoints sampleRect ∧
    (⟨f32_zero, f32_zero, -2⟩ : Point).rank < (⟨f32_one, f32_one, 2147483647⟩ : Point).rank :=
  search_best_ranked_overflow qsortRef qsortRef_spec

/-- C5: `point_in_rect` is true exactly when `lx < x < hx` and `ly < y < hy`; it is false
when a coordinate equals a bound (as a bit pattern or under `==`); and on the one-point
context `[(1,1) rank 0]` with rectangle `(1,1,5,5)` `search` returns 0 for every
`maxCount ≥ 0`. -/
theorem point_in_rect_open :
    (∀ x y lx ly hx hy : F32, point_in_rect x y lx ly hx hy = true ↔
      (f32_lt lx x = true ∧ f32_lt x hx = true) ∧ (f32_lt ly y = true ∧ f32_lt y hy = true)) ∧
    (∀ x y lx ly hx hy : F32, (x = lx ∨ x = hx ∨ y = ly ∨ y = hy) →
      point_in_rect x y lx ly hx hy = false) ∧
    (∀ x y lx ly hx hy : F32,
      (f32_eq x lx = true ∨ f32_eq x hx = true ∨ f32_eq y ly = true ∨ f32_eq y hy = true) →
      point_in_rect x y lx ly hx hy = false) ∧
    (∀ (qsort : QsortFn) (sc : SearchContext), create cornerPoints = some sc →
      ∀ (count : Int) (out_points : Buffer), 0 ≤ count →
        ∃ r, search qsort sc cornerRect count out_points = some r ∧ r.ret = 0) := by
  refine ⟨?_, ?_, ?_, ?_⟩
  · intro x y lx ly hx hy
    rw [point_in_rect_iff, and_assoc]
  · intro x y lx ly hx hy h
    cases hp : point_in_rect x y lx ly hx hy
    · rfl
    · obtain ⟨h1, h2, h3, h4⟩ := (point_in_rect_iff _ _ _ _ _ _).mp hp
      rcases h with h | h | h | h
      · exact absurd h.symm (f32_lt_not_eq h1).2.2
      · exact absurd h (f32_lt_not_eq h2).2.2
      · exact absurd h.symm (f32_lt_not_eq h3).2.2
      · exact absurd h (f32_lt_not_eq h4).2.2
  · intro x y lx ly hx hy h
    cases hp : point_in_rect x y lx ly hx hy
    · rfl
    · obtain ⟨h1, h2, h3, h4⟩ := (point_in_rect_iff _ _ _ _ _ _).mp hp
      rcases h with h | h | h | h
      · rw [(f32_lt_not_eq h1).2.1] at h; cases h
      · rw [(f32_lt_not_eq h2).1] at h; cases h
      · rw [(f32_lt_not_eq h3).2.1] at h; cases h
      · rw [(f32_lt_not_eq h4).1] at h; cases h
  · intro qsort sc hsc count out_points hc
    rw [create_some hsc]
    have hm : matching cornerPoints cornerRect = [] := by decide
    refine ⟨_, search_copy_zero qsort cornerPoints cornerRect count out_points ?_, rfl⟩
    rw [hm, copy_count_nonneg _ _ hc]
    simp

theorem point_in_rect_open_witness :
    point_in_rect f32_one f32_five f32_one f32_zero f32_five f32_five = false ∧
    point_in_rect f32_zero f32_one f32_minus_zero f32_zero f32_five f32_five = false ∧
    ∃ r, search qsortRef { points := cornerPoints.map some, points_len := 1 } cornerRect 3
        [none, none, none] = some r ∧ r.ret = 0 :=
  ⟨point_in_rect_open.2.1 f32_one f32_five f32_one f32_zero f32_five f32_five
      (Or.inl rfl),
    point_in_rect_open.2.2.1 f32_zero f32_one f32_minus_zero f32_zero f32_five f32_five
      (Or.inl (by decide)),
    point_in_rect_open.2.2.2 qsortRef _ (by decide) 3 [none, none, none] (by decide)⟩

/-- C6: for every context and every rectangle with `lx >= hx` or `ly >= hy`, no stored
point satisfies `point_in_rect`, and `search` returns 0 for every `maxCount ≥ 0`. -/
theorem search_inverted_rect (qsort : QsortFn) (input : List Point) (sc : SearchContext)
    (hsc : create input = some sc) (rect : Rect)
    (hinv : f32_ge rect.lx rect.hx = true ∨ f32_ge rect.ly rect.hy = true)
    (count : Int) (hc : 0 ≤ count) (out_points : Buffer) :
    (∀ p ∈ input, point_in_rect p.x p.y rect.lx rect.ly rect.hx rect.hy = false) ∧
    ∃ r, search qsort sc rect count out_points = some r ∧ r.ret = 0 := by
  have hm := matching_inverted input rect hinv
  constructor
  · intro p hp
    cases hin : point_in_rect p.x p.y rect.lx rect.ly rect.hx rect.hy
    · rfl
    · have : p ∈ matching input rect := by
        unfold matching; exact List.mem_filter.mpr ⟨hp, hin⟩
      rw [hm] at this
      cases this
  · rw [create_some hsc]
    refine ⟨_, search_copy_zero qsort input rect count out_points ?_, rfl⟩
    rw [hm, copy_count_nonneg _ _ hc]
    simp

theorem search_inverted_rect_witness :
    (∀ p ∈ samplePoints, point_in_rect p.x p.y invertedRect.lx invertedRect.ly
        invertedRect.hx invertedRect.hy = false) ∧
    ∃ r, search qsortRef sampleContext invertedRect 2 [none, none] = some r ∧ r.ret = 0 :=
  search_inverted_rect qsortRef samplePoints sampleContext (by decide) invertedRect
    (by decide) 2 (by decide) [none, none]

/-- C7: for every context and rectangle, `search` with `maxCount = 0` returns 0 whatever
the number of matches, and the output array is exactly what it was before the call. -/
theorem search_zero_count (qsort : QsortFn) (input : List Point) (sc : SearchContext)
    (hsc : create input = some sc) (rect : Rect) (out_points : Buffer) :
    ∃ r, search qsort sc rect 0 out_points = some r ∧ r.ret = 0 ∧
      r.out_points = out_points := by
  rw [create_some hsc]
  refine ⟨_, search_copy_zero qsort input rect 0 out_points ?_, rfl, rfl⟩
  unfold copy_count
  split <;> omega

theorem search_zero_count_witness :
    0 < (matching samplePoints sampleRect).length ∧
    ∃ r, search qsortRef sampleContext sampleRect 0 [some ⟨f32_five, f32_one, 7⟩, none]
        = some r ∧ r.ret = 0 ∧ r.out_points = [some ⟨f32_five, f32_one, 7⟩, none] :=
  ⟨by decide,
    search_zero_count qsortRef samplePoints sampleContext (by decide) sampleRect
      [some ⟨f32_five, f32_one, 7⟩, none]⟩

/-- C8, as stated, fails: on the context of the empty point set a negative count
argument does not make `search` return 0. The value computed for the return is the
count itself, and the copy of that many points has no defined result. -/
theorem search_empty_negative_count :
    create [] = some emptyContext ∧ copy_count 0 (-1) = -1 ∧
    ¬ ∃ r, search qsortRef emptyContext sampleRect (-1) [none] = some r ∧ r.ret = 0 := by
  decide

/-- C8 (amended): for the context created from the empty point set, `search` returns 0
for every rectangle and every `maxCount ≥ 0`, and leaves the output array untouched. -/
theorem search_empty_context (qsort : QsortFn) (sc : SearchContext)
    (hsc : create [] = some sc) (rect : Rect) (count : Int) (hc : 0 ≤ count)
    (out_points : Buffer) :
    ∃ r, search qsort sc rect count out_points = some r ∧ r.ret = 0 ∧
      r.out_points = out_points := by
  rw [create_some hsc]
  refine ⟨_, search_copy_zero qsort [] rect count out_points ?_, rfl, rfl⟩
  rw [copy_count_nonneg _ _ hc]
  simp [matching]

theorem search_empty_context_witness :
    ∃ r, search qsortRef emptyContext sampleRect 2147483647 [none] = some r ∧ r.ret = 0 ∧
      r.out_points = [none] :=
  search_empty_context qsortRef emptyContext (by decide) sampleRect 2147483647 (by decide)
    [none]

/-- C9: `search` leaves the context as it found it (same stored points, same length),
and a second call with the same rectangle and `maxCount`, on the context as the first
call left it and with any output array that has room, returns the same count and the
same output points. -/
theorem search_pure_read (qsort : QsortFn) (hq : QsortSpec qsort)
    (input : List Point) (sc : SearchContext) (hsc : create input = some sc)
    (rect : Rect) (count : Int) (hc : 0 ≤ count) (out_points : Buffer)
    (hcap : min (matching input rect).length count.toNat ≤ out_points.length) :
    ∃ r1, search qsort sc rect count out_points = some r1 ∧
      r1.sc = sc ∧ r1.sc.points = sc.points ∧ r1.sc.points_len = sc.points_len ∧
      ∀ out_points2 : Buffer,
        min (matching input rect).length count.toNat ≤ out_points2.length →
        ∃ r2, search qsort r1.sc rect count out_points2 = some r2 ∧
          r2.ret = r1.ret ∧ returned r2 = returned r1 ∧ r2.sc = sc := by
  obtain ⟨r1, hr1, hret1, hsc1, -, -, hout1⟩ :=
    returned_search_ok qsort hq input rect count out_points hc hcap
  rw [create_some hsc]
  refine ⟨r1, hr1, hsc1, by rw [hsc1], by rw [hsc1], fun out_points2 hcap2 => ?_⟩
  obtain ⟨r2, hr2, hret2, hsc2, -, -, hout2⟩ :=
    returned_search_ok qsort hq input rect count out_points2 hc hcap2
  rw [hsc1]
  exact ⟨r2, hr2, by rw [hret1, hret2], by rw [hout1, hout2], hsc2⟩

theorem search_pure_read_witness :
    ∃ r1, search qsortRef sampleContext sampleRect 2 [none, none] = some r1 ∧
      r1.sc = sampleContext ∧ r1.sc.points = sampleContext.points ∧
      r1.sc.points_len = sampleContext.points_len ∧
      ∀ out_points2 : Buffer,
        min (matching samplePoints sampleRect).length (2 : Int).toNat ≤ out_points2.length →
        ∃ r2, search qsortRef r1.sc sampleRect 2 out_points2 = some r2 ∧
          r2.ret = r1.ret ∧ returned r2 = returned r1 ∧ r2.sc = sampleContext :=
  search_pure_read qsortRef qsortRef_spec samplePoints sampleContext (by decide)
    sampleRect 2 (by decide) [none, none] (by decide)

/-- C10: for every input sequence, the empty one included, `create` yields a context
whose `points_len` is the input length and whose stored points are the input points,
index by index, with coordinates and ranks unchanged. -/
theorem create_copies_input (input : List Point) :
    ∃ sc, create input = some sc ∧
      sc.points_len = (input.length : Int) ∧
      sc.points.length = input.length ∧
      (∀ (i : Nat) (h : i < input.length), readAt sc.points i = some (input.get ⟨i, h⟩)) ∧
      readCells sc.points = some input := by
  refine ⟨_, create_eq input, rfl, by simp, fun i h => ?_, readCells_map_some input⟩
  exact readAt_map_some input i h

/-- C11: on the context created from `[(0,0) rank 5, (5,5) rank 1, (2,2) rank 3]`,
`search` with rectangle `(-1,-1,10,10)` and `maxCount = 2` returns 2 and writes
`[(5,5) rank 1, (2,2) rank 3]`, in that order, at the front of the output array,
whichever `qsort` meeting the contract is linked. -/
theorem search_worked_example (qsort : QsortFn) (hq : QsortSpec qsort)
    (out_points : Buffer) (hcap : 2 ≤ out_points.length) :
    ∃ sc, create examplePoints = some sc ∧
      search qsort sc exampleRect 2 out_points
        = some { ret := 2,
                 out_points := [some ⟨f32_five, f32_five, 1⟩, some ⟨f32_two, f32_two, 3⟩]
                   ++ out_points.drop 2,
                 sc := sc } := by
  refine ⟨_, create_eq examplePoints, ?_⟩
  have hm : matching examplePoints exampleRect = examplePoints := by decide
  have hsort : qsort point_cmp examplePoints = exampleSorted :=
    qsort_eq_of_ascending qsort hq examplePoints exampleSorted (by decide) (by decide)
      (by decide) (by decide)
  have h := search_ok qsort hq examplePoints exampleRect 2 out_points (by decide)
    (by rw [hm]; exact le_trans (min_le_right _ _) hcap)
  rw [hm, hsort] at h
  exact h

theorem search_worked_example_witness :
    ∃ sc, create examplePoints = some sc ∧
      search qsortRef sc exampleRect 2 [none, none]
        = some { ret := 2,
                 out_points := [some ⟨f32_five, f32_five, 1⟩, some ⟨f32_two, f32_two, 3⟩]
                   ++ List.drop 2 [none, none],
                 sc := sc } :=
  search_worked_example qsortRef qsortRef_spec [none, none] (by decide)

/-- C12: the subtraction of `point_cmp` overflows. For the ranks `-2147483648 < 1` the
mathematical difference `-2147483649` is below the signed 32-bit range, its 32-bit
value is `2147483647`, and `point_cmp` reports the lower-ranked point as greater. -/
theorem point_cmp_overflow :
    (-2147483648 : Int) < 1 ∧
    (-2147483648 : Int) - 1 < -2147483648 ∧
    wrap32 (-2147483648 - 1) = 2147483647 ∧
    ∀ x1 y1 x2 y2 : F32,
      (⟨x1, y1, -2147483648⟩ : Point).rank < (⟨x2, y2, 1⟩ : Point).rank ∧
      point_cmp ⟨x1, y1, -2147483648⟩ ⟨x2, y2, 1⟩ = 2147483647 ∧
      0 < point_cmp ⟨x1, y1, -2147483648⟩ ⟨x2, y2, 1⟩ := by
  refine ⟨by decide, by decide, by decide, fun x1 y1 x2 y2 => ?_⟩
  have h : point_cmp ⟨x1, y1, -2147483648⟩ ⟨x2, y2, 1⟩ = 2147483647 := by
    show wrap32 (-2147483648 - 1) = 2147483647
    decide
  exact ⟨by show (-2147483648 : Int) < 1; decide, h, by rw [h]; decide⟩

/-- C13, as stated, fails: `qsortRev` meets the contract of `qsort`, and with it
`search` on two stored points of equal rank, both inside the rectangle, writes them in
the reverse of their stored order. -/
theorem search_ties_reversed :
    QsortSpec qsortRev ∧ create tiePoints = some tieContext ∧
    search qsortRev tieContext sampleRect 2 [none, none]
      = some { ret := 2,
               out_points := [some ⟨f32_one, f32_one, 4⟩, some ⟨f32_zero, f32_zero, 4⟩],
               sc := tieContext } :=
  ⟨qsortRev_spec, by decide, by decide⟩

/-- C13 (amended): when the linked `qsort` is stable and no difference of two matching
ranks leaves the signed 32-bit range, the tie-break of `search` is stable on input
order. For every context, rectangle and `maxCount ≥ 0`, the returned points of any one
rank are, in order, the first of the matching stored points of that rank; hence two
points of equal rank that appear in the output in the order `p, q` appear in the stored
sequence in that order. -/
theorem search_ties_stable (qsort : QsortFn) (hq : QsortSpec qsort)
    (hstable : QsortStable qsort)
    (input : List Point) (sc : SearchContext) (hsc : create input = some sc)
    (rect : Rect)
    (hrange : ∀ a ∈ matching input rect, ∀ b ∈ matching input rect,
      -2147483648 ≤ a.rank - b.rank ∧ a.rank - b.rank ≤ 2147483647)
    (count : Int) (hc : 0 ≤ count) (out_points : Buffer)
    (hcap : min (matching input rect).length count.toNat ≤ out_points.length) :
    ∃ (r : SearchResult) (ps : List Point),
      search qsort sc rect count out_points = some r ∧ returned r = ps.map some ∧
      (∀ k : Int, ∃ rest,
        ps.filter (fun y => decide (y.rank = k)) ++ rest
          = (matching input rect).filter (fun y => decide (y.rank = k))) ∧
      (∀ p q : Point, p.rank = q.rank → List.Sublist [p, q] ps →
        List.Sublist [p, q] input) := by
  obtain ⟨r, hr, -, -, -, -, hout⟩ :=
    returned_search_ok qsort hq input rect count out_points hc hcap
  have hperm := hq.perm point_cmp (matching input rect)
  have hcons := point_cmp_consistent (matching input rect) hrange
  have hcmp : ∀ x ∈ matching input rect, ∀ y ∈ matching input rect,
      decide (point_cmp x y = 0) = decide (y.rank = x.rank) := by
    intro x hx y hy
    have : point_cmp x y = x.rank - y.rank :=
      wrap32_of_range _ (hrange x hx y hy).1 (hrange x hx y hy).2
    rw [this, decide_eq_decide]
    omega
  have hcls : ∀ k : Int,
      (qsort point_cmp (matching input rect)).filter (fun y => decide (y.rank = k))
        = (matching input rect).filter (fun y => decide (y.rank = k)) := by
    intro k
    by_cases hk : ∃ x ∈ matching input rect, x.rank = k
    · obtain ⟨x, hx, rfl⟩ := hk
      have h := hstable point_cmp (matching input rect) hcons x hx
      rw [List.filter_congr (fun y hy => hcmp x hx y (hperm.subset hy)),
        List.filter_congr (fun y hy => hcmp x hx y hy)] at h
      exact h
    · have h1 : (matching input rect).filter (fun y => decide (y.rank = k)) = [] := by
        rw [List.filter_eq_nil_iff]
        intro y hy hyk
        exact hk ⟨y, hy, of_decide_eq_true hyk⟩
      have h2 : (qsort point_cmp (matching input rect)).filter
          (fun y => decide (y.rank = k)) = [] := by
        rw [List.filter_eq_nil_iff]
        intro y hy hyk
        exact hk ⟨y, hperm.subset hy, of_decide_eq_true hyk⟩
      rw [h1, h2]
  rw [create_some hsc]
  refine ⟨r, _, hr, hout, fun k => ?_, fun p q hpq hsub => ?_⟩
  · refine ⟨((qsort point_cmp (matching input rect)).drop
        (min (matching input rect).length count.toNat)).filter
          (fun y => decide (y.rank = k)), ?_⟩
    rw [← List.filter_append, List.take_append_drop, hcls k]
  · have h1 := (hsub.trans (List.take_sublist _ _)).filter
      (fun y => decide (y.rank = p.rank))
    rw [hcls p.rank] at h1
    have h2 : [p, q].filter (fun y => decide (y.rank = p.rank)) = [p, q] := by
      simp [List.filter_cons, hpq]
    rw [h2] at h1
    exact (h1.trans (List.filter_sublist _)).trans (List.filter_sublist _)

theorem search_ties_stable_witness :
    ∃ (r : SearchResult) (ps : List Point),
      search qsortRef tieContext sampleRect 2 [none, none] = some r ∧
      returned r = ps.map some ∧
      (∀ k : Int, ∃ rest,
        ps.filter (fun y => decide (y.rank = k)) ++ rest
          = (matching tiePoints sampleRect).filter (fun y => decide (y.rank = k))) ∧
      (∀ p q : Point, p.rank = q.rank → List.Sublist [p, q] ps →
        List.Sublist [p, q] tiePoints) :=
  search_ties_stable qsortRef qsortRef_spec qsortRef_stable tiePoints tieContext (by decide)
    sampleRect (by decide) 2 (by decide) [none, none] (by decide)

/-- C14: the points `search` returns are stored points satisfying `point_in_rect`, each
at most as often as it is stored among the matches (a sub-multiset of the matches), and
when `maxCount ≥ M` they are a permutation of all `M` matches. -/
theorem search_returned_submultiset (qsort : QsortFn) (hq : QsortSpec qsort)
    (input : List Point) (sc : SearchContext) (hsc : create input = some sc)
    (rect : Rect) (count : Int) (hc : 0 ≤ count) (out_points : Buffer)
    (hcap : min (matching input rect).length count.toNat ≤ out_points.length) :
    ∃ (r : SearchResult) (ps : List Point), search qsort sc rect count out_points = some r ∧ returned r = ps.map some ∧
      ps.Subperm (matching input rect) ∧
      (∀ p, ps.count p ≤ (matching input rect).count p) ∧
      (∀ p ∈ ps, p ∈ input ∧
        point_in_rect p.x p.y rect.lx rect.ly rect.hx rect.hy = true) ∧
      (((matching input rect).length : Int) ≤ count → ps.Perm (matching input rect)) := by
  obtain ⟨r, hr, -, -, -, -, hout⟩ :=
    returned_search_ok qsort hq input rect count out_points hc hcap
  have hperm := hq.perm point_cmp (matching input rect)
  have hsub : ((qsort point_cmp (matching input rect)).take
      (min (matching input rect).length count.toNat)).Subperm (matching input rect) :=
    (List.take_sublist _ _).subperm.trans hperm.subperm
  rw [create_some hsc]
  refine ⟨r, _, hr, hout, hsub, fun p => hsub.count_le p, fun p hp => ?_, fun hle => ?_⟩
  · have hm := hsub.subset hp
    unfold matching at hm
    exact List.mem_filter.mp hm
  · have hmin : min (matching input rect).length count.toNat = (matching input rect).length := by
      omega
    rw [hmin, List.take_of_length_le (by rw [hperm.length_eq])]
    exact hperm

theorem search_returned_submultiset_witness :
    ∃ (r : SearchResult) (ps : List Point), search qsortRef sampleContext sampleRect 5 [none, none] = some r ∧
      returned r = ps.map some ∧
      ps.Subperm (matching samplePoints sampleRect) ∧
      (∀ p, ps.count p ≤ (matching samplePoints sampleRect).count p) ∧
      (∀ p ∈ ps, p ∈ samplePoints ∧
        point_in_rect p.x p.y sampleRect.lx sampleRect.ly sampleRect.hx sampleRect.hy = true) ∧
      (((matching samplePoints sampleRect).length : Int) ≤ 5 →
        ps.Perm (matching samplePoints sampleRect)) :=
  search_returned_submultiset qsortRef qsortRef_spec samplePoints sampleContext (by decide)
    sampleRect 5 (by decide) [none, none] (by decide)

/-- C15: for limits `0 ≤ k ≤ k2`, the points returned with `maxCount = k` are the first
`min(M, k)` of the points returned with `maxCount = k2`. -/
theorem search_limit_monotone (qsort : QsortFn) (hq : QsortSpec qsort)
    (input : List Point) (sc : SearchContext) (hsc : create input = some sc)
    (rect : Rect) (k k2 : Int) (hk : 0 ≤ k) (hkk : k ≤ k2) (out1 out2 : Buffer)
    (hcap1 : min (matching input rect).length k.toNat ≤ out1.length)
    (hcap2 : min (matching input rect).length k2.toNat ≤ out2.length) :
    ∃ r1 r2, search qsort sc rect k out1 = some r1 ∧ search qsort sc rect k2 out2 = some r2 ∧
      r1.ret = min ((matching input rect).length : Int) k ∧
      r1.ret ≤ r2.ret ∧
      returned r1 = (returned r2).take (min (matching input rect).length k.toNat) := by
  obtain ⟨r1, hr1, hret1, -, -, -, hout1⟩ :=
    returned_search_ok qsort hq input rect k out1 hk hcap1
  obtain ⟨r2, hr2, hret2, -, -, -, hout2⟩ :=
    returned_search_ok qsort hq input rect k2 out2 (le_trans hk hkk) hcap2
  rw [create_some hsc]
  refine ⟨r1, r2, hr1, hr2, by rw [hret1]; omega, by rw [hret1, hret2]; omega, ?_⟩
  rw [hout1, hout2, ← List.map_take, List.take_take]
  congr 2
  omega

theorem search_limit_monotone_witness :
    ∃ r1 r2, search qsortRef sampleContext sampleRect 1 [none] = some r1 ∧
      search qsortRef sampleContext sampleRect 2 [none, none] = some r2 ∧
      r1.ret = min ((matching samplePoints sampleRect).length : Int) 1 ∧
      r1.ret ≤ r2.ret ∧
      returned r1
        = (returned r2).take (min (matching samplePoints sampleRect).length (1 : Int).toNat) :=
  search_limit_monotone qsortRef qsortRef_spec samplePoints sampleContext (by decide)
    sampleRect 1 2 (by decide) (by decide) [none] [none, none] (by decide) (by decide)

/-- C17: for `maxCount ≥ 0`, `search` keeps the length of the output array and every
entry at an index at or beyond the returned count holds the value it had before the
call. -/
theorem search_writes_only_front (qsort : QsortFn) (hq : QsortSpec qsort)
    (input : List Point) (sc : SearchContext) (hsc : create input = some sc)
    (rect : Rect) (count : Int) (hc : 0 ≤ count) (out_points : Buffer)
    (hcap : min (matching input rect).length count.toNat ≤ out_points.length) :
    ∃ r, search qsort sc rect count out_points = some r ∧
      r.out_points.length = out_points.length ∧
      ∀ i : Nat, r.ret ≤ (i : Int) → r.out_points[i]? = out_points[i]? := by
  obtain ⟨r, hr, hret, -, hlen, hdrop, -⟩ :=
    returned_search_ok qsort hq input rect count out_points hc hcap
  rw [create_some hsc]
  refine ⟨r, hr, hlen, fun i hi => ?_⟩
  have h1 : r.out_points[i]? = (r.out_points.drop r.ret.toNat)[i - r.ret.toNat]? := by
    rw [List.getElem?_drop]; congr 1; omega
  have h2 : out_points[i]? = (out_points.drop r.ret.toNat)[i - r.ret.toNat]? := by
    rw [List.getElem?_drop]; congr 1; omega
  rw [h1, h2, hdrop]

theorem search_writes_only_front_witness :
    ∃ r, search qsortRef sampleContext sampleRect 1
        usedBuffer = some r ∧
      r.out_points.length = usedBuffer.length ∧
      ∀ i : Nat, r.ret ≤ (i : Int) →
        r.out_points[i]? = usedBuffer[i]? :=
  search_writes_only_front qsortRef qsortRef_spec samplePoints sampleContext (by decide)
    sampleRect 1 (by decide) usedBuffer (by decide)

/-- C18: the filter loop never leaves its working array. On entry to every iteration
`i < points_len` the loop state exists, `out_count ≤ i < points_len`, the working array
has `points_len` cells, so the write `temp_points[out_count]` is in bounds; the full run
passes through that state; and on exit `0 ≤ out_count ≤ points_len`. -/
theorem scan_stays_in_bounds (input : List Point) (sc : SearchContext)
    (hsc : create input = some sc) (rect : Rect) :
    (∀ i : Nat, (i : Int) < sc.points_len →
      ∃ (temp_points : Buffer) (out_count : Nat),
        scan sc rect i 0 (malloc sc.points_len.toNat, 0) = some (temp_points, out_count) ∧
        out_count ≤ i ∧ (i : Int) < sc.points_len ∧
        temp_points.length = sc.points_len.toNat ∧ out_count < temp_points.length ∧
        (∀ p, ∃ t1, writeAt temp_points out_count p = some t1 ∧
          t1.length = temp_points.length) ∧
        scan sc rect sc.points_len.toNat 0 (malloc sc.points_len.toNat, 0)
          = scan sc rect (sc.points_len.toNat - i) i (temp_points, out_count)) ∧
    (∃ (temp_points : Buffer) (out_count : Nat),
        scan sc rect sc.points_len.toNat 0 (malloc sc.points_len.toNat, 0)
          = some (temp_points, out_count) ∧
        0 ≤ (out_count : Int) ∧ (out_count : Int) ≤ sc.points_len ∧
        temp_points.length = sc.points_len.toNat) := by
  rw [create_some hsc]
  simp only [Int.toNat_ofNat]
  constructor
  · intro i hi
    have hi1 : i < input.length := by omega
    have hst := scan_entry_state input rect i (le_of_lt hi1)
    have hm : (matching (input.take i) rect).length ≤ i := by
      have := matching_length_le (input.take i) rect
      rw [List.length_take] at this
      omega
    have hlen : ((matching (input.take i) rect).map some
        ++ List.replicate (input.length - (matching (input.take i) rect).length)
            (none : Option Point)).length = input.length := by
      simp only [List.length_append, List.length_map, List.length_replicate]
      omega
    refine ⟨_, _, hst, hm, hi, hlen, by rw [hlen]; omega, fun p => ?_, ?_⟩
    · unfold writeAt
      rw [if_pos (by rw [hlen]; omega)]
      exact ⟨_, rfl, by rw [List.length_set]⟩
    · have h := scan_add { points := input.map some, points_len := (input.length : Int) }
        rect (input.length - i) i 0 (malloc input.length, 0)
      rw [Nat.add_sub_of_le (le_of_lt hi1)] at h
      rw [h, hst]
      simp
  · have hst := scan_entry_state input rect input.length (Nat.le_refl _)
    have hm := matching_length_le (input.take input.length) rect
    rw [List.length_take] at hm
    refine ⟨_, _, hst, Int.ofNat_nonneg _, by omega, ?_⟩
    simp only [List.length_append, List.length_map, List.length_replicate]
    omega

theorem scan_stays_in_bounds_witness :
    ∃ (temp_points : Buffer) (out_count : Nat),
      scan sampleContext sampleRect 2 0 (malloc sampleContext.points_len.toNat, 0)
        = some (temp_points, out_count) ∧
      out_count ≤ 2 ∧ ((2 : Nat) : Int) < sampleContext.points_len ∧
      temp_points.length = sampleContext.points_len.toNat ∧
      out_count < temp_points.length ∧
      (∀ p, ∃ t1, writeAt temp_points out_count p = some t1 ∧
        t1.length = temp_points.length) ∧
      scan sampleContext sampleRect sampleContext.points_len.toNat 0
          (malloc sampleContext.points_len.toNat, 0)
        = scan sampleContext sampleRect (sampleContext.points_len.toNat - 2) 2
            (temp_points, out_count) :=
  (scan_stays_in_bounds samplePoints sampleContext (by decide) sampleRect).1 2 (by decide)

/-- C19: when the mathematical difference of the ranks lies in the signed 32-bit range
(as it does when both ranks are non-negative 32-bit values), `point_cmp` is a correct
three-way comparison: negative iff `lhs.rank < rhs.rank`, zero iff the ranks are equal,
positive iff `lhs.rank > rhs.rank`. -/
theorem point_cmp_three_way (lhs rhs : Point)
    (h : (-2147483648 ≤ lhs.rank - rhs.rank ∧ lhs.rank - rhs.rank ≤ 2147483647) ∨
      (0 ≤ lhs.rank ∧ lhs.rank ≤ 2147483647 ∧ 0 ≤ rhs.rank ∧ rhs.rank ≤ 2147483647)) :
    (point_cmp lhs rhs < 0 ↔ lhs.rank < rhs.rank) ∧
    (point_cmp lhs rhs = 0 ↔ lhs.rank = rhs.rank) ∧
    (0 < point_cmp lhs rhs ↔ rhs.rank < lhs.rank) := by
  have hr : -2147483648 ≤ lhs.rank - rhs.rank ∧ lhs.rank - rhs.rank ≤ 2147483647 := by
    rcases h with h | h
    · exact h
    · omega
  have hc : point_cmp lhs rhs = lhs.rank - rhs.rank := wrap32_of_range _ hr.1 hr.2
  rw [hc]
  omega

theorem point_cmp_three_way_witness :
    (point_cmp ⟨f32_zero, f32_one, 7⟩ ⟨f32_five, f32_two, 2147483647⟩ < 0 ↔
      (⟨f32_zero, f32_one, 7⟩ : Point).rank < (⟨f32_five, f32_two, 2147483647⟩ : Point).rank) ∧
    (point_cmp ⟨f32_zero, f32_one, 7⟩ ⟨f32_five, f32_two, 2147483647⟩ = 0 ↔
      (⟨f32_zero, f32_one, 7⟩ : Point).rank = (⟨f32_five, f32_two, 2147483647⟩ : Point).rank) ∧
    (0 < point_cmp ⟨f32_zero, f32_one, 7⟩ ⟨f32_five, f32_two, 2147483647⟩ ↔
      (⟨f32_five, f32_two, 2147483647⟩ : Point).rank < (⟨f32_zero, f32_one, 7⟩ : Point).rank) :=
  point_cmp_three_way ⟨f32_zero, f32_one, 7⟩ ⟨f32_five, f32_two, 2147483647⟩
    (Or.inr (by decide))

end PointSearch
